import Mathlib

/-!
Verification of the personal-finance desktop application (CSV import, grid
editing with undo/redo, chart derivation, PDF export).  The definitions below
are a shallow embedding of the Python sources:

* `components/Charts.py` and `components/PdfExporter.py` — ledger derivation
  (signed amounts, running balance, top-N grouping) and the PDF export flow;
* `main_window.py` and `components/EditCellCommand.py` — the grid / undo-redo
  state machine;
* `components/CsvReader.py` — CSV import and quick save.

Modelling conventions: pandas numeric values are exact integers (`Int`); dates
are modelled by `pd.to_datetime` restricted to ISO `YYYY-MM-DD` strings mapped
to a totally ordered `Nat` key; the tie order of `pandas.sort_values` (whose
default quicksort leaves the order of equal keys unspecified) is modelled by
the stable determinization, insertion sort.
-/

/-- Python `str.lower`, character-wise case mapping, as applied to `Type`
cell values in `Charts._create_line_chart` and `PdfExporter._create_time_chart`. -/
def pyLower (s : String) : String := ⟨s.data.map Char.toLower⟩

/-- Case-insensitive string equality: the spec's reading of
`type.lower() == "income"` as "type equals income case-insensitively". -/
def eqCaseInsensitive (s t : String) : Bool := pyLower s == pyLower t

/-- A typed transaction row as produced by `MainWindow._table_to_dataframe`:
`Description`, `Date`, `Type` stay text, `Amount` has been coerced to a
number (modelled as `Int`; the claims involve only exact integer amounts). -/
structure TRow where
  description : String
  date : String
  type : String
  amount : Int
deriving DecidableEq

/-- Signed amount (`Charts._create_line_chart` lines 73-76 and
`PdfExporter._create_time_chart` lines 129-132):
`row['Amount'] if row['Type'].lower() == 'income' else -row['Amount']`. -/
def signedAmount (r : TRow) : Int :=
  if pyLower r.type = "income" then r.amount else -r.amount

/-- Split a character list at `'-'` separators (helper for date parsing). -/
def splitDash : List Char → List (List Char)
  | [] => [[]]
  | c :: cs =>
    match splitDash cs with
    | [] => [[]]
    | g :: gs => if c = '-' then [] :: g :: gs else (c :: g) :: gs

/-- Numeric value of a digit list, most significant first. -/
def digitsToNat (l : List Char) : Nat := l.foldl (fun n c => n * 10 + (c.toNat - 48)) 0

/-- Models `pd.to_datetime` on ISO `YYYY-MM-DD` date strings: the result key
`y * 10000 + m * 100 + d` orders exactly as the calendar date; strings not of
this shape fail to parse (pandas: `NaT` under `errors='coerce'`, an exception
otherwise). -/
def parseDate (s : String) : Option Nat :=
  match splitDash s.data with
  | [y, m, d] =>
    if (!y.isEmpty && y.all Char.isDigit) && (!m.isEmpty && m.all Char.isDigit)
        && (!d.isEmpty && d.all Char.isDigit) then
      if 1 ≤ digitsToNat m ∧ digitsToNat m ≤ 12 ∧ 1 ≤ digitsToNat d ∧ digitsToNat d ≤ 31 then
        some (digitsToNat y * 10000 + digitsToNat m * 100 + digitsToNat d)
      else none
    else none
  | _ => none

/-- The comparison used by `sort_values('Date')`: order on the parsed date key. -/
def keyLe (a b : Nat × Int) : Prop := a.1 ≤ b.1

instance : DecidableRel keyLe := fun a b => Nat.decLe a.1 b.1

instance : IsTotal (Nat × Int) keyLe := ⟨fun a b => Nat.le_total a.1 b.1⟩

instance : IsTrans (Nat × Int) keyLe := ⟨fun _ _ _ h h' => Nat.le_trans h h'⟩

/-- Strict date-key order (used to state order-independence for distinct dates). -/
def keyLt (a b : Nat × Int) : Prop := a.1 < b.1

instance : IsAntisymm (Nat × Int) keyLt :=
  ⟨fun _ _ h h' => absurd (Nat.lt_trans h h') (Nat.lt_irrefl _)⟩

/-- Cumulative sum of the signed amounts (`df['SignedAmount'].cumsum()`),
keeping each row's date key. -/
def cumsum (acc : Int) : List (Nat × Int) → List (Nat × Int)
  | [] => []
  | (d, v) :: l => (d, acc + v) :: cumsum (acc + v) l

/-- Dated signed amounts surviving date coercion: row `r` contributes
`(parsed date, signedAmount r)` when its date parses.  Signed amounts are
per-row, so computing them before or after the row filter agrees with the
source, which fills the `SignedAmount` column before dropping rows. -/
def datedAmounts (rows : List TRow) : List (Nat × Int) :=
  rows.filterMap fun r => (parseDate r.date).map fun d => (d, signedAmount r)

/-- Balance series of `Charts._create_line_chart` (lines 72-79): signed amount
per row, `pd.to_datetime(errors='coerce')`, `dropna(subset=['Date'])`,
`sort_values('Date')`, cumulative sum. -/
def chartsBalanceSeries (rows : List TRow) : List (Nat × Int) :=
  cumsum 0 (List.insertionSort keyLe (datedAmounts rows))

/-- Balance series of `PdfExporter._create_time_chart` (lines 127-135): same
pipeline, but `pd.to_datetime` is called without `errors='coerce'`, so any
unparseable date raises (modelled by `none`); `astype(float)` on the already
numeric Amount column is the identity in the integer model. -/
def pdfBalanceSeries (rows : List TRow) : Option (List (Nat × Int)) :=
  if rows.all fun r => (parseDate r.date).isSome then
    some (cumsum 0 (List.insertionSort keyLe (datedAmounts rows)))
  else none

/-- C2: for every row, the signed amount equals the amount when the type equals
"income" case-insensitively and the negated amount for every other type value
(including "Expense" and unrecognized free text). -/
theorem signedAmount_income_else_negated (r : TRow) :
    signedAmount r = if eqCaseInsensitive r.type "income" then r.amount else -r.amount := by
  have h : pyLower "income" = "income" := rfl
  by_cases hc : pyLower r.type = "income" <;>
    simp [signedAmount, eqCaseInsensitive, h, hc]

theorem cumsum_map_fst (acc : Int) (l : List (Nat × Int)) :
    (cumsum acc l).map Prod.fst = l.map Prod.fst := by
  induction l generalizing acc with
  | nil => rfl
  | cons p l ih => cases p with | mk d v => simp [cumsum, ih]

theorem datedAmounts_filter_parse (rows : List TRow) :
    datedAmounts (rows.filter fun r => (parseDate r.date).isSome) = datedAmounts rows := by
  induction rows with
  | nil => rfl
  | cons r rows ih =>
    cases hp : parseDate r.date with
    | none =>
      simpa [datedAmounts, List.filter_cons, List.filterMap_cons, hp] using ih
    | some d =>
      simpa [datedAmounts, List.filter_cons, List.filterMap_cons, hp] using ih

theorem filter_orderedInsert_key (a : Nat × Int) (l : List (Nat × Int)) (k : Nat) :
    (List.orderedInsert keyLe a l).filter (fun p => p.1 == k)
      = (a :: l).filter fun p => p.1 == k := by
  induction l with
  | nil => simp [List.orderedInsert]
  | cons b l ih =>
    rw [List.orderedInsert]
    by_cases h : keyLe a b
    · rw [if_pos h]
    · rw [if_neg h]
      have hb : b.1 < a.1 := Nat.lt_of_not_le h
      by_cases hbk : b.1 = k
      · have hak : ¬ a.1 = k := by omega
        simp [List.filter_cons, beq_iff_eq, hbk, hak, ih]
      · by_cases hak : a.1 = k <;>
          simp [List.filter_cons, beq_iff_eq, hbk, hak, ih]

theorem filter_insertionSort_key (l : List (Nat × Int)) (k : Nat) :
    (List.insertionSort keyLe l).filter (fun p => p.1 == k) = l.filter fun p => p.1 == k := by
  induction l with
  | nil => rfl
  | cons a l ih =>
    rw [List.insertionSort, filter_orderedInsert_key]
    by_cases hak : a.1 = k <;> simp [List.filter_cons, beq_iff_eq, hak, ih]

theorem sorted_keyLt_of_sorted_of_ne {m : List (Nat × Int)} (hs : m.Sorted keyLe)
    (hne : m.Pairwise fun a b => a.1 ≠ b.1) : m.Sorted keyLt :=
  (hs.and hne).imp fun h => Nat.lt_of_le_of_ne h.1 h.2

theorem chartsBalanceSeries_perm_invariant (l₁ l₂ : List TRow) (hp : l₁.Perm l₂)
    (hd : (datedAmounts l₁).Pairwise fun a b => a.1 ≠ b.1) :
    chartsBalanceSeries l₁ = chartsBalanceSeries l₂ := by
  have hperm : (datedAmounts l₁).Perm (datedAmounts l₂) := hp.filterMap _
  have hd₂ : (datedAmounts l₂).Pairwise fun a b => a.1 ≠ b.1 :=
    (hperm.pairwise_iff fun h => Ne.symm h).mp hd
  have hne₁ : (List.insertionSort keyLe (datedAmounts l₁)).Pairwise fun a b => a.1 ≠ b.1 :=
    ((List.perm_insertionSort keyLe (datedAmounts l₁)).pairwise_iff fun h => Ne.symm h).mpr hd
  have hne₂ : (List.insertionSort keyLe (datedAmounts l₂)).Pairwise fun a b => a.1 ≠ b.1 :=
    ((List.perm_insertionSort keyLe (datedAmounts l₂)).pairwise_iff fun h => Ne.symm h).mpr hd₂
  have key : List.insertionSort keyLe (datedAmounts l₁)
      = List.insertionSort keyLe (datedAmounts l₂) := by
    apply List.eq_of_perm_of_sorted (r := keyLt)
    · exact ((List.perm_insertionSort keyLe (datedAmounts l₁)).trans hperm).trans
        (List.perm_insertionSort keyLe (datedAmounts l₂)).symm
    · exact sorted_keyLt_of_sorted_of_ne (List.sorted_insertionSort keyLe _) hne₁
    · exact sorted_keyLt_of_sorted_of_ne (List.sorted_insertionSort keyLe _) hne₂
  unfold chartsBalanceSeries
  rw [key]

/-- C1 (amended): the balance series sorts the surviving rows ascending by
parsed date with a stable sort, drops rows whose date fails to parse (excluded
entirely), and cumulatively sums signed amounts in that order; the result is
independent of input row order *when the surviving parsed dates are pairwise
distinct* (with equal dates the stable order, and hence the intermediate
balances, depend on the input order); the concrete Jan-1/Jan-3/Jan-2 instance
yields [(Jan-1,100), (Jan-2,120), (Jan-3,90)]. -/
theorem balanceSeries_spec :
    (∀ rows, chartsBalanceSeries (rows.filter fun r => (parseDate r.date).isSome)
        = chartsBalanceSeries rows)
    ∧ (∀ rows, ((chartsBalanceSeries rows).map Prod.fst).Sorted (· ≤ ·))
    ∧ (∀ rows k, (List.insertionSort keyLe (datedAmounts rows)).filter (fun p => p.1 == k)
        = (datedAmounts rows).filter fun p => p.1 == k)
    ∧ (∀ l₁ l₂, l₁.Perm l₂ → ((datedAmounts l₁).Pairwise fun a b => a.1 ≠ b.1) →
        chartsBalanceSeries l₁ = chartsBalanceSeries l₂)
    ∧ chartsBalanceSeries
        [⟨"i1", "2024-01-01", "Income", 100⟩, ⟨"e1", "2024-01-03", "Expense", 30⟩,
         ⟨"i2", "2024-01-02", "Income", 20⟩]
      = [(20240101, 100), (20240102, 120), (20240103, 90)] := by
  refine ⟨?_, ?_, fun rows k => filter_insertionSort_key (datedAmounts rows) k,
    chartsBalanceSeries_perm_invariant,
    by decide⟩
  · intro rows
    unfold chartsBalanceSeries
    rw [datedAmounts_filter_parse]
  · intro rows
    unfold chartsBalanceSeries
    rw [cumsum_map_fst]
    exact (List.sorted_insertionSort keyLe (datedAmounts rows)).map
      Prod.fst (fun a b hab => hab)

theorem balanceSeries_spec_witness :
    chartsBalanceSeries
        [(⟨"i2", "2024-01-02", "Income", 20⟩ : TRow), ⟨"i1", "2024-01-01", "Income", 100⟩,
         ⟨"e1", "2024-01-03", "Expense", 30⟩]
      = chartsBalanceSeries
        [⟨"i1", "2024-01-01", "Income", 100⟩, ⟨"e1", "2024-01-03", "Expense", 30⟩,
         ⟨"i2", "2024-01-02", "Income", 20⟩] :=
  balanceSeries_spec.2.2.2.1 _ _ (by decide) (by decide)

/-- C1 counterexample: with two rows sharing the same date, permuting the input
changes the balance series (the intermediate balances differ), so the result is
not independent of the input row order as claimed. -/
theorem balanceSeries_not_order_independent :
    List.Perm
        [(⟨"a", "2024-01-01", "Income", 100⟩ : TRow), ⟨"b", "2024-01-01", "Expense", 50⟩]
        [⟨"b", "2024-01-01", "Expense", 50⟩, ⟨"a", "2024-01-01", "Income", 100⟩]
    ∧ chartsBalanceSeries
        [⟨"a", "2024-01-01", "Income", 100⟩, ⟨"b", "2024-01-01", "Expense", 50⟩]
      = [(20240101, 100), (20240101, 50)]
    ∧ chartsBalanceSeries
        [⟨"b", "2024-01-01", "Expense", 50⟩, ⟨"a", "2024-01-01", "Income", 100⟩]
      = [(20240101, -50), (20240101, 50)] :=
  ⟨List.Perm.swap _ _ _, by decide, by decide⟩

/-- C9 (amended): the on-screen and PDF balance derivations agree (the PDF one
returns exactly the chart one) on every row set all of whose dates parse, and
the PDF derivation is defined exactly on those row sets — but the chart
derivation is total (it drops unparseable-date rows instead of failing), so the
two are *not* defined on the same inputs. -/
theorem pdf_charts_balance_agree :
    (∀ rows, (pdfBalanceSeries rows).isSome ↔ (rows.all fun r => (parseDate r.date).isSome))
    ∧ ∀ rows, (rows.all fun r => (parseDate r.date).isSome) →
        pdfBalanceSeries rows = some (chartsBalanceSeries rows) := by
  constructor
  · intro rows
    by_cases h : rows.all fun r => (parseDate r.date).isSome <;>
      simp [pdfBalanceSeries, h]
  · intro rows h
    simp [pdfBalanceSeries, h, chartsBalanceSeries]

theorem pdf_charts_balance_agree_witness :
    pdfBalanceSeries [(⟨"a", "2024-01-01", "Income", 1⟩ : TRow)]
      = some (chartsBalanceSeries [⟨"a", "2024-01-01", "Income", 1⟩]) :=
  pdf_charts_balance_agree.2 _ (by decide)

/-- C9 counterexample: on a row whose date does not parse, the chart derivation
is defined (the row is dropped) while the PDF derivation fails, so the two
derivations are not defined on the same inputs. -/
theorem pdf_charts_domains_differ :
    chartsBalanceSeries [(⟨"a", "x", "Income", 1⟩ : TRow)] = []
    ∧ pdfBalanceSeries [(⟨"a", "x", "Income", 1⟩ : TRow)] = none := by
  constructor <;> decide


/-- Code-point lexicographic strict comparison on character lists: the order
Python uses on strings, hence the order of pandas group keys. -/
def strLtB : List Char → List Char → Bool
  | [], [] => false
  | [], _ :: _ => true
  | _ :: _, [] => false
  | a :: as, b :: bs => if a = b then strLtB as bs else decide (a.toNat < b.toNat)

/-- Non-strict string order `s ≤ t` as `¬ (t < s)`, code-point lexicographic. -/
def descrLe (s t : String) : Prop := strLtB t.data s.data = false

/-- Strict string order, code-point lexicographic. -/
def descrLt (s t : String) : Prop := strLtB s.data t.data = true

instance : DecidableRel descrLe := fun s t => instDecidableEqBool (strLtB t.data s.data) false

instance : DecidableRel descrLt := fun s t => instDecidableEqBool (strLtB s.data t.data) true

theorem charEqOfToNatEq {a b : Char} (h : a.toNat = b.toNat) : a = b :=
  Char.eq_of_val_eq (UInt32.ext h)

theorem strLtB_irrefl : ∀ l, strLtB l l = false
  | [] => rfl
  | a :: as => by simp [strLtB, strLtB_irrefl as]

theorem strLtB_trans : ∀ a b c, strLtB a b = true → strLtB b c = true → strLtB a c = true := by
  intro a
  induction a with
  | nil =>
    intro b c hab hbc
    cases b with
    | nil => exact absurd hab (by simp [strLtB])
    | cons y ys =>
      cases c with
      | nil => exact absurd hbc (by simp [strLtB])
      | cons z zs => simp [strLtB]
  | cons x xs ih =>
    intro b c hab hbc
    cases b with
    | nil => exact absurd hab (by simp [strLtB])
    | cons y ys =>
      cases c with
      | nil => exact absurd hbc (by simp [strLtB])
      | cons z zs =>
        rw [strLtB] at hab hbc ⊢
        by_cases hxy : x = y
        · subst hxy
          rw [if_pos rfl] at hab
          by_cases hxz : x = z
          · subst hxz
            rw [if_pos rfl] at hbc
            rw [if_pos rfl]
            exact ih ys zs hab hbc
          · rw [if_neg hxz] at hbc
            rw [if_neg hxz]
            exact hbc
        · rw [if_neg hxy] at hab
          have hxyn : x.toNat < y.toNat := of_decide_eq_true hab
          by_cases hyz : y = z
          · subst hyz
            rw [if_neg hxy]
            exact decide_eq_true hxyn
          · rw [if_neg hyz] at hbc
            have hyzn : y.toNat < z.toNat := of_decide_eq_true hbc
            have hxzn : x.toNat < z.toNat := Nat.lt_trans hxyn hyzn
            have hxz : x ≠ z := fun he => by rw [he] at hxzn; omega
            rw [if_neg hxz]
            exact decide_eq_true hxzn

theorem strLtB_connect : ∀ a b, strLtB a b = false → strLtB b a = false → a = b := by
  intro a
  induction a with
  | nil =>
    intro b hab _
    cases b with
    | nil => rfl
    | cons y ys => exact absurd hab (by simp [strLtB])
  | cons x xs ih =>
    intro b hab hba
    cases b with
    | nil => exact absurd hba (by simp [strLtB])
    | cons y ys =>
      rw [strLtB] at hab hba
      by_cases hxy : x = y
      · subst hxy
        rw [if_pos rfl] at hab hba
        rw [ih ys hab hba]
      · rw [if_neg hxy] at hab
        rw [if_neg fun he => hxy he.symm] at hba
        have h1 : ¬ x.toNat < y.toNat := of_decide_eq_false hab
        have h2 : ¬ y.toNat < x.toNat := of_decide_eq_false hba
        have hxyn : x.toNat = y.toNat := by omega
        exact absurd (charEqOfToNatEq hxyn) hxy

theorem strLtB_asymm {a b : List Char} (h : strLtB a b = true) : strLtB b a = false := by
  cases hba : strLtB b a
  · rfl
  · have := strLtB_trans a b a h hba
    rw [strLtB_irrefl] at this
    exact Bool.noConfusion this

instance : IsTotal String descrLe :=
  ⟨fun s t => by
    cases hv : strLtB t.data s.data
    · exact Or.inl hv
    · exact Or.inr (strLtB_asymm hv)⟩

instance : IsTrans String descrLe :=
  ⟨fun s t u hst htu => by
    have hst' : strLtB t.data s.data = false := hst
    have htu'' : strLtB u.data t.data = false := htu
    show strLtB u.data s.data = false
    cases hus : strLtB u.data s.data
    · rfl
    · exfalso
      cases htu' : strLtB t.data u.data
      · have he : t.data = u.data := strLtB_connect _ _ htu' htu''
        rw [he, hus] at hst'
        exact Bool.noConfusion hst'
      · have ht : strLtB t.data s.data = true := strLtB_trans _ _ _ htu' hus
        rw [ht] at hst'
        exact Bool.noConfusion hst'⟩

theorem descrLt_of_le_of_ne {s t : String} (hle : descrLe s t) (hne : s ≠ t) : descrLt s t := by
  cases hst : strLtB s.data t.data
  · exfalso
    have hd : s.data = t.data := strLtB_connect _ _ hst hle
    exact hne (congrArg String.mk hd)
  · exact hst

/-- Group keys of `df.groupby('Description')`: pandas `groupby` (default
`sort=True`) keys the groups by the distinct descriptions in ascending
code-point order. -/
def groupKeys (rows : List TRow) : List String :=
  List.insertionSort descrLe (rows.map fun r => r.description).dedup

/-- Summed raw `Amount` of the rows of one description group (the source sums
the `Amount` column as-is; no type-based sign is applied in the pie charts). -/
def groupAmount (rows : List TRow) (k : String) : Int :=
  ((rows.filter fun r => r.description == k).map fun r => r.amount).sum

/-- `df.groupby('Description')['Amount'].sum()` — one `(key, summed amount)`
pair per distinct description, keys ascending. -/
def groupSums (rows : List TRow) : List (String × Int) :=
  (groupKeys rows).map fun k => (k, groupAmount rows k)

/-- Descending comparison on the summed amount: `sort_values(ascending=False)`. -/
def sumGe (a b : String × Int) : Prop := b.2 ≤ a.2

instance : DecidableRel sumGe := fun a b => Int.decLe b.2 a.2

instance : IsTotal (String × Int) sumGe := ⟨fun a b => Int.le_total b.2 a.2⟩

instance : IsTrans (String × Int) sumGe := ⟨fun _ _ _ h h' => Int.le_trans h' h⟩

/-- `Charts._create_pie_chart` (lines 41-47) and `PdfExporter._create_pie_chart`
(lines 102-103): group by Description, sum `Amount` per group, sort descending
by the sum (stable determinization of `sort_values`), keep the first 10. -/
def topGroups (rows : List TRow) : List (String × Int) :=
  (List.insertionSort sumGe (groupSums rows)).take 10

/-- Equal-sum groups appear in ascending key order: the combined order the
descending stable sort produces on the alphabetically keyed group list. -/
def sumThenKeyLt (a b : String × Int) : Prop := b.2 < a.2 ∨ (a.2 = b.2 ∧ descrLt a.1 b.1)

theorem filter_orderedInsert_stable {α : Type} (le : α → α → Prop) [DecidableRel le]
    (q : α → Bool) (hq : ∀ a b, q a = true → q b = true → le a b)
    (a : α) (l : List α) :
    (List.orderedInsert le a l).filter q = (a :: l).filter q := by
  induction l with
  | nil => rfl
  | cons b l ih =>
    rw [List.orderedInsert]
    by_cases h : le a b
    · rw [if_pos h]
    · rw [if_neg h]
      by_cases hqa : q a = true
      · have hqb : q b = false := by
          cases hqb' : q b
          · rfl
          · exact absurd (hq a b hqa hqb') h
        simp [List.filter_cons, hqa, hqb, ih]
      · have hqa' : q a = false := Bool.eq_false_iff.mpr hqa
        cases hqb : q b <;> simp [List.filter_cons, hqa', hqb, ih]

theorem filter_insertionSort_stable {α : Type} (le : α → α → Prop) [DecidableRel le]
    (q : α → Bool) (hq : ∀ a b, q a = true → q b = true → le a b) (l : List α) :
    (List.insertionSort le l).filter q = l.filter q := by
  induction l with
  | nil => rfl
  | cons a l ih =>
    rw [List.insertionSort, filter_orderedInsert_stable le q hq]
    rw [List.filter_cons, List.filter_cons, ih]

theorem pairwise_keyLt_of_filters {l : List (String × Int)}
    (h : ∀ v : Int, ((l.filter fun p => p.2 == v).Pairwise fun a b => descrLt a.1 b.1)) :
    l.Pairwise fun a b => a.2 = b.2 → descrLt a.1 b.1 := by
  induction l with
  | nil => exact List.Pairwise.nil
  | cons a l ih =>
    refine List.Pairwise.cons ?_ (ih fun v => ?_)
    · intro b hb hv
      have ha := h a.2
      rw [List.filter_cons] at ha
      simp only [beq_self_eq_true, if_true] at ha
      have hmem : b ∈ l.filter fun p => p.2 == a.2 :=
        List.mem_filter.mpr ⟨hb, by simp [hv.symm]⟩
      exact (List.pairwise_cons.mp ha).1 b hmem
    · have hv := h v
      rw [List.filter_cons] at hv
      by_cases hav : (a.2 == v) = true
      · rw [if_pos hav] at hv
        exact (List.pairwise_cons.mp hv).2
      · rwa [if_neg hav] at hv

theorem groupSums_map_fst (rows : List TRow) :
    (groupSums rows).map Prod.fst = groupKeys rows := by
  simp [groupSums, Function.comp_def]

theorem groupKeys_sorted_lt (rows : List TRow) : (groupKeys rows).Sorted descrLt := by
  have hs : (groupKeys rows).Sorted descrLe := by
    unfold groupKeys
    exact List.sorted_insertionSort _ _
  have hn : (groupKeys rows).Nodup :=
    ((List.perm_insertionSort descrLe _).nodup_iff).mpr
      (List.nodup_dedup (rows.map fun r => r.description))
  exact (hs.and hn).imp fun h => descrLt_of_le_of_ne h.1 h.2

/-- C8 (amended): the grouping summary groups rows by Description (pandas
`groupby` keys the groups in ascending alphabetical/code-point order), sums
the raw `Amount` per group, sorts descending by that sum and keeps the first
10 — but groups with equal sums appear in ascending key order (inherited from
the groupby keying), not in first-encountered order. -/
theorem topGroups_spec :
    (∀ rows, ((groupSums rows).map Prod.fst).Sorted descrLt)
    ∧ ∀ rows, ∃ full : List (String × Int), full.Perm (groupSums rows)
        ∧ full.Sorted sumThenKeyLt ∧ topGroups rows = full.take 10 := by
  have hfst : ∀ rows, ((groupSums rows).map Prod.fst).Sorted descrLt := by
    intro rows
    rw [groupSums_map_fst]
    exact groupKeys_sorted_lt rows
  refine ⟨hfst, fun rows => ⟨List.insertionSort sumGe (groupSums rows),
    List.perm_insertionSort sumGe (groupSums rows), ?_, rfl⟩⟩
  have hsorted : (List.insertionSort sumGe (groupSums rows)).Sorted sumGe :=
    List.sorted_insertionSort sumGe (groupSums rows)
  have hkeys : (groupSums rows).Pairwise fun a b => descrLt a.1 b.1 :=
    List.pairwise_map.mp (hfst rows)
  have hties : (List.insertionSort sumGe (groupSums rows)).Pairwise
      fun a b => a.2 = b.2 → descrLt a.1 b.1 := by
    refine pairwise_keyLt_of_filters fun v => ?_
    rw [filter_insertionSort_stable sumGe _ ?_]
    · exact hkeys.sublist (List.filter_sublist _)
    · intro a b ha hb
      have hav : a.2 = v := by simpa using ha
      have hbv : b.2 = v := by simpa using hb
      show b.2 ≤ a.2
      rw [hav, hbv]
  refine (hsorted.and hties).imp fun h => ?_
  rcases lt_or_eq_of_le h.1 with hlt | heq
  · exact Or.inl hlt
  · exact Or.inr ⟨heq.symm, h.2 heq.symm⟩

/-- C8 counterexample: two groups "B" (encountered first) and "A" with equal
summed amount 5 — the summary lists "A" before "B" (ascending key order from
the groupby keying), not in first-encountered order as the claim states. -/
theorem topGroups_ties_not_first_encountered :
    topGroups [⟨"B", "2024-01-01", "Expense", 5⟩, ⟨"A", "2024-01-02", "Expense", 5⟩]
      = [("A", 5), ("B", 5)]
    ∧ ([(⟨"B", "2024-01-01", "Expense", 5⟩ : TRow),
        ⟨"A", "2024-01-02", "Expense", 5⟩].map fun r => r.description) = ["B", "A"] := by
  constructor <;> decide

/-- `pd.to_numeric(..., errors='coerce')` on a grid cell, restricted to
optionally signed integer literals (amounts are modelled as exact integers);
any other text coerces to NaN, modelled as `none`. -/
def pyToNumeric (s : String) : Option Int :=
  match s.data with
  | '-' :: rest =>
    if !rest.isEmpty && rest.all Char.isDigit then some (-(digitsToNat rest : Int)) else none
  | l => if !l.isEmpty && l.all Char.isDigit then some ((digitsToNat l : Int)) else none

/-- `MainWindow._table_to_dataframe` (lines 75-101): `None` for a rowless grid;
build a DataFrame of the cell texts; coerce `Amount` with
`pd.to_numeric(errors='coerce')`; `dropna(subset=['Amount','Date','Type'])` —
every `Date`/`Type` cell arrives from the grid as a (possibly empty) string and
is never NaN, so only a non-coercible Amount can drop a row; `None` when no row
survives.  A missing `Amount`/`Date`/`Type` column raises a `KeyError`, caught
by the bare `except` and turned into `None`.  Each surviving row is returned as
its unchanged cell texts paired with the coerced Amount. -/
def tableToDataframe (headers : List String) (cells : List (List String)) :
    Option (List (List String × Int)) :=
  if cells.length = 0 then none
  else
    match headers.indexOf? "Amount", headers.indexOf? "Date", headers.indexOf? "Type" with
    | some ai, some _, some _ =>
      let typed := cells.filterMap fun row => (pyToNumeric (row.getD ai "")).map fun v => (row, v)
      if typed.isEmpty then none else some typed
    | _, _, _ => none

/-- C7 (amended): with the required columns present, the typed extraction drops
exactly the rows whose `Amount` cell fails numeric coercion — `Date` and `Type`
cells are not parsed and, being grid text, are never missing in the NaN sense —
keeps survivors unchanged and in order (paired with the coerced amount), and
returns the `None`-equivalent exactly when the grid has no rows or no row
survives. -/
theorem tableToDataframe_spec (headers : List String) (cells : List (List String)) (ai : Nat)
    (hA : headers.indexOf? "Amount" = some ai)
    (hD : (headers.indexOf? "Date").isSome) (hT : (headers.indexOf? "Type").isSome) :
    (tableToDataframe headers cells = none ↔
      cells = [] ∨ ∀ row ∈ cells, pyToNumeric (row.getD ai "") = none)
    ∧ ∀ l, tableToDataframe headers cells = some l →
        l = cells.filterMap fun row => (pyToNumeric (row.getD ai "")).map fun v => (row, v) := by
  obtain ⟨di, hD2⟩ := Option.isSome_iff_exists.mp hD
  obtain ⟨ti, hT2⟩ := Option.isSome_iff_exists.mp hT
  have hred : tableToDataframe headers cells
      = (if cells.length = 0 then none
         else if (cells.filterMap fun row =>
             (pyToNumeric (row.getD ai "")).map fun v => (row, v)).isEmpty then none
         else some (cells.filterMap fun row =>
             (pyToNumeric (row.getD ai "")).map fun v => (row, v))) := by
    unfold tableToDataframe
    rw [hA, hD2, hT2]
  rw [hred]
  by_cases hempty : cells.length = 0
  · have hnil : cells = [] := List.length_eq_zero.mp hempty
    subst hnil
    simp
  · rw [if_neg hempty]
    have hnil : cells ≠ [] := fun h => hempty (by rw [h]; rfl)
    constructor
    · constructor
      · intro hnone
        by_cases hfm : (cells.filterMap fun row =>
            (pyToNumeric (row.getD ai "")).map fun v => (row, v)) = []
        · refine Or.inr fun row hrow => ?_
          have hmem := List.filterMap_eq_nil_iff.mp hfm row hrow
          cases hv : pyToNumeric (row.getD ai "") with
          | none => rfl
          | some v => rw [hv] at hmem; exact absurd hmem (by simp)
        · rw [if_neg fun h => hfm (List.isEmpty_iff.mp h)] at hnone
          exact absurd hnone (by simp)
      · intro hcases
        rcases hcases with hc | hall
        · exact absurd hc hnil
        · have hfm : (cells.filterMap fun row =>
              (pyToNumeric (row.getD ai "")).map fun v => (row, v)) = [] :=
            List.filterMap_eq_nil_iff.mpr fun row hrow => by rw [hall row hrow]; rfl
          rw [if_pos (List.isEmpty_iff.mpr hfm)]
    · intro l hl
      by_cases hfm : (cells.filterMap fun row =>
          (pyToNumeric (row.getD ai "")).map fun v => (row, v)).isEmpty
      · rw [if_pos hfm] at hl
        exact absurd hl (by simp)
      · rw [if_neg hfm] at hl
        exact (Option.some_injective _ hl).symm


theorem tableToDataframe_spec_witness :
    [(["a", "", "", "5"], (5 : Int))]
      = [["a", "", "", "5"]].filterMap fun row =>
          (pyToNumeric (row.getD 3 "")).map fun v => (row, v) :=
  (tableToDataframe_spec ["Description", "Date", "Type", "Amount"] [["a", "", "", "5"]] 3
    (by decide) (by decide) (by decide)).2 _ (by decide)

/-- C7 counterexample: a row whose `Date` and `Type` cells are empty (missing)
and a row whose `Date` does not parse both survive the typed extraction — the
code only validates `Amount` here, while the claim says rows with missing or
unparseable `Date`/`Type` are dropped (which would make these results `none`). -/
theorem tableToDataframe_keeps_bad_dates :
    tableToDataframe ["Description", "Date", "Type", "Amount"] [["a", "", "", "5"]]
      = some [(["a", "", "", "5"], 5)]
    ∧ tableToDataframe ["Description", "Date", "Type", "Amount"]
        [["b", "notadate", "x", "7"]]
      = some [(["b", "notadate", "x", "7"], 7)]
    ∧ parseDate "notadate" = none := by
  refine ⟨?_, ?_, ?_⟩ <;> decide

/-- A recorded single-cell edit: the fields of `EditCellCommand`. -/
structure EditCmd where
  row : Nat
  col : Nat
  oldValue : String
  newValue : String
deriving DecidableEq

/-- State of the main window: the `QTableWidget` grid of cell texts, the last
clicked cell and its captured text, the `_ignore_change` reentrancy flag, and
the `QUndoStack` (applied-command list plus cursor index). -/
structure WinState where
  grid : List (List String)
  lastCell : Option (Nat × Nat)
  lastValue : Option String
  ignoreChange : Bool
  undoStack : List EditCmd
  undoIndex : Nat
deriving DecidableEq

/-- `item(r, c).text() if item else ""`. -/
def getCell (g : List (List String)) (r c : Nat) : String := (g.getD r []).getD c ""

/-- The grid mutation of `QTableWidget.setItem`: update the cell text;
out-of-range indices are ignored by Qt, matching `List.set`. -/
def setCell (g : List (List String)) (r c : Nat) (v : String) : List (List String) :=
  g.set r ((g.getD r []).set c v)

def rawSet (σ : WinState) (r c : Nat) (v : String) : WinState :=
  { σ with grid := setCell σ.grid r c v }

/-- `EditCellCommand.redo` (lines 48-54): set `_ignore_change`, `setItem` the
new value, clear the flag.  `setItem` emits `itemChanged`; the connected
handler is the `h` argument, invoked on the mutated state. -/
def cmdRedoWith (h : WinState → WinState) (σ : WinState) (cmd : EditCmd) : WinState :=
  let σ1 := { σ with ignoreChange := true }
  let σ2 := h (rawSet σ1 cmd.row cmd.col cmd.newValue)
  { σ2 with ignoreChange := false }

/-- `EditCellCommand.undo` (lines 40-46): the same with the old value. -/
def cmdUndoWith (h : WinState → WinState) (σ : WinState) (cmd : EditCmd) : WinState :=
  let σ1 := { σ with ignoreChange := true }
  let σ2 := h (rawSet σ1 cmd.row cmd.col cmd.oldValue)
  { σ2 with ignoreChange := false }

/-- `QUndoStack.push`: drop the redo tail above the cursor, append the new
command, and execute its `redo`. -/
def pushCmdWith (h : WinState → WinState) (σ : WinState) (cmd : EditCmd) : WinState :=
  let stack := σ.undoStack.take σ.undoIndex ++ [cmd]
  cmdRedoWith h { σ with undoStack := stack, undoIndex := stack.length } cmd

/-- The old value captured by `_on_item_changed` (main_window.py line 70):
the text remembered at the last click when the changed cell is the last
clicked one, and `""` otherwise. -/
def oldOf (σ : WinState) (r c : Nat) : String :=
  if σ.lastCell = some (r, c) then σ.lastValue.getD "" else ""

/-- `MainWindow._on_item_changed` (lines 63-73), invoked by `itemChanged` with
the already mutated cell: return under the guard flag, else push an
`EditCellCommand` with the captured old value.  The fuel bounds signal
nesting; the guard makes depth 2 sufficient (`onItemChangedF_fuel`). -/
def onItemChangedF : Nat → WinState → Nat → Nat → String → WinState
  | 0, σ, _, _, _ => σ
  | fuel + 1, σ, r, c, txt =>
    if σ.ignoreChange then σ
    else pushCmdWith (fun σ2 => onItemChangedF fuel σ2 r c txt) σ ⟨r, c, oldOf σ r c, txt⟩

/-- `QUndoStack.undo`: no-op when nothing is applied; otherwise run the
current command's `undo` and decrement the cursor. -/
def stackUndoF (fuel : Nat) (σ : WinState) : WinState :=
  match σ.undoStack.get? (σ.undoIndex - 1), σ.undoIndex with
  | _, 0 => σ
  | none, _ => σ
  | some cmd, _ + 1 =>
    let σ2 := cmdUndoWith (fun σ3 => onItemChangedF fuel σ3 cmd.row cmd.col cmd.oldValue) σ cmd
    { σ2 with undoIndex := σ.undoIndex - 1 }

/-- `QUndoStack.redo`: no-op at the top; otherwise run the next command's
`redo` and increment the cursor. -/
def stackRedoF (fuel : Nat) (σ : WinState) : WinState :=
  match σ.undoStack.get? σ.undoIndex with
  | none => σ
  | some cmd =>
    let σ2 := cmdRedoWith (fun σ3 => onItemChangedF fuel σ3 cmd.row cmd.col cmd.newValue) σ cmd
    { σ2 with undoIndex := σ.undoIndex + 1 }

/-- `MainWindow.undo` (lines 182-187): guard flag held around `undo_stack.undo()`. -/
def winUndo (σ : WinState) : WinState :=
  let σ1 := { σ with ignoreChange := true }
  let σ2 := stackUndoF 2 σ1
  { σ2 with ignoreChange := false }

/-- `MainWindow.redo` (lines 189-194). -/
def winRedo (σ : WinState) : WinState :=
  let σ1 := { σ with ignoreChange := true }
  let σ2 := stackRedoF 2 σ1
  { σ2 with ignoreChange := false }

/-- `MainWindow._on_cell_clicked` (lines 57-61). -/
def clickCell (σ : WinState) (r c : Nat) : WinState :=
  { σ with lastCell := some (r, c), lastValue := some (getCell σ.grid r c) }

/-- A user edit through the grid: Qt updates the item text, then emits
`itemChanged`, which `_on_item_changed` handles. -/
def userEdit (σ : WinState) (r c : Nat) (txt : String) : WinState :=
  onItemChangedF 2 (rawSet σ r c txt) r c txt

/-- Fuel 2 is exact: deeper signal nesting is cut off by the guard flag, so
every larger fuel computes the same handler result. -/
theorem onItemChangedF_fuel (fuel : Nat) (σ : WinState) (r c : Nat) (txt : String) :
    onItemChangedF (fuel + 2) σ r c txt = onItemChangedF 2 σ r c txt := by
  by_cases hf : σ.ignoreChange
  · simp [onItemChangedF, hf]
  · simp [onItemChangedF, hf, pushCmdWith, cmdRedoWith, rawSet]

theorem set_getD_self {α : Type} : ∀ (l : List α) (i : Nat) (d : α), i < l.length →
    l.set i (l.getD i d) = l
  | _ :: _, 0, _, _ => rfl
  | a :: l, i + 1, d, h => by
    simp only [List.set_cons_succ, List.getD_cons_succ]
    rw [set_getD_self l i d (Nat.lt_of_succ_lt_succ h)]
  | [], i, d, h => absurd h (by simp)

theorem getD_set_self {α : Type} : ∀ (l : List α) (i : Nat) (v d : α), i < l.length →
    (l.set i v).getD i d = v
  | _ :: _, 0, _, _, _ => rfl
  | a :: l, i + 1, v, d, h => by
    simp only [List.set_cons_succ, List.getD_cons_succ]
    exact getD_set_self l i v d (Nat.lt_of_succ_lt_succ h)
  | [], i, v, d, h => absurd h (by simp)

theorem set_of_length_le {α : Type} : ∀ (l : List α) (i : Nat) (v : α), l.length ≤ i →
    l.set i v = l
  | [], _, _, _ => rfl
  | a :: l, i + 1, v, h => by
    simp only [List.set_cons_succ]
    rw [set_of_length_le l i v (Nat.le_of_succ_le_succ h)]
  | a :: l, 0, v, h => absurd h (by simp)

theorem get?_append_length {α : Type} : ∀ (l : List α) (a : α), (l ++ [a])[l.length]? = some a
  | [], _ => rfl
  | _ :: l, a => by
    simp only [List.cons_append, List.length_cons, List.getElem?_cons_succ]
    exact get?_append_length l a

theorem setCell_setCell (g : List (List String)) (r c : Nat) (a b : String) :
    setCell (setCell g r c a) r c b = setCell g r c b := by
  unfold setCell
  by_cases hr : r < g.length
  · rw [getD_set_self g r ((g.getD r []).set c a) [] hr, List.set_set, List.set_set]
  · rw [set_of_length_le g r ((g.getD r []).set c a) (Nat.le_of_not_lt hr)]

theorem setCell_getCell_self (g : List (List String)) (r c : Nat)
    (hr : r < g.length) (hc : c < (g.getD r []).length) :
    setCell g r c (getCell g r c) = g := by
  unfold setCell getCell
  rw [set_getD_self (g.getD r []) c "" hc, set_getD_self g r [] hr]

theorem onItemChangedF_guard (fuel : Nat) (σ : WinState) (r c : Nat) (txt : String)
    (h : σ.ignoreChange = true) : onItemChangedF fuel σ r c txt = σ := by
  cases fuel <;> simp [onItemChangedF, h]

theorem stackUndoF_stack (fuel : Nat) (σ : WinState) :
    (stackUndoF fuel σ).undoStack = σ.undoStack := by
  unfold stackUndoF
  split
  · rfl
  · rfl
  · simp [cmdUndoWith, rawSet, onItemChangedF_guard]

theorem stackRedoF_stack (fuel : Nat) (σ : WinState) :
    (stackRedoF fuel σ).undoStack = σ.undoStack := by
  unfold stackRedoF
  split
  · rfl
  · simp [cmdRedoWith, rawSet, onItemChangedF_guard]

/-- C4: the reentrancy flag is false again after every `undo()`/`redo()` (the
programmatic mutation runs between an explicit set-true and set-false, the
shape of `cmdUndoWith`/`cmdRedoWith`), and no `undo()`/`redo()` invocation
appends a record: the Edit History list is unchanged.  The mutating call
(`QTableWidget.setItem`) has no failing exit path — Qt ignores out-of-range
indices — so the normal path is the only exit path. -/
theorem undo_redo_guard (σ : WinState) :
    (winUndo σ).ignoreChange = false
    ∧ (winRedo σ).ignoreChange = false
    ∧ (winUndo σ).undoStack = σ.undoStack
    ∧ (winRedo σ).undoStack = σ.undoStack
    ∧ (∀ h cmd, ∃ σm : WinState, σm.ignoreChange = true
        ∧ cmdUndoWith h σ cmd = { h σm with ignoreChange := false })
    ∧ ∀ h cmd, ∃ σm : WinState, σm.ignoreChange = true
        ∧ cmdRedoWith h σ cmd = { h σm with ignoreChange := false } := by
  refine ⟨by simp [winUndo], by simp [winRedo], ?_, ?_,
    fun h cmd => ⟨rawSet { σ with ignoreChange := true } cmd.row cmd.col cmd.oldValue,
      by simp [rawSet], rfl⟩,
    fun h cmd => ⟨rawSet { σ with ignoreChange := true } cmd.row cmd.col cmd.newValue,
      by simp [rawSet], rfl⟩⟩
  · show ({ stackUndoF 2 { σ with ignoreChange := true } with
      ignoreChange := false }).undoStack = σ.undoStack
    exact stackUndoF_stack 2 _
  · show ({ stackRedoF 2 { σ with ignoreChange := true } with
      ignoreChange := false }).undoStack = σ.undoStack
    exact stackRedoF_stack 2 _

theorem userEdit_proj (σ : WinState) (r c : Nat) (txt : String)
    (hflag : σ.ignoreChange = false) :
    (userEdit σ r c txt).grid = setCell (setCell σ.grid r c txt) r c txt
    ∧ (userEdit σ r c txt).undoStack
        = σ.undoStack.take σ.undoIndex ++ [⟨r, c, oldOf σ r c, txt⟩]
    ∧ (userEdit σ r c txt).undoIndex = (σ.undoStack.take σ.undoIndex).length + 1
    ∧ (userEdit σ r c txt).ignoreChange = false := by
  refine ⟨?_, ?_, ?_, ?_⟩ <;>
    simp [userEdit, onItemChangedF, pushCmdWith, cmdRedoWith, rawSet, oldOf, hflag]

theorem winUndo_proj (σ : WinState) (cmd : EditCmd) (n : Nat)
    (hidx : σ.undoIndex = n + 1) (hget : σ.undoStack[n]? = some cmd) :
    (winUndo σ).grid = setCell σ.grid cmd.row cmd.col cmd.oldValue
    ∧ (winUndo σ).undoStack = σ.undoStack
    ∧ (winUndo σ).undoIndex = n := by
  refine ⟨?_, ?_, ?_⟩ <;>
    simp [winUndo, stackUndoF, hidx, hget, cmdUndoWith, rawSet, onItemChangedF_guard]

theorem winRedo_proj (σ : WinState) (cmd : EditCmd)
    (hget : σ.undoStack[σ.undoIndex]? = some cmd) :
    (winRedo σ).grid = setCell σ.grid cmd.row cmd.col cmd.newValue
    ∧ (winRedo σ).undoStack = σ.undoStack
    ∧ (winRedo σ).undoIndex = σ.undoIndex + 1 := by
  refine ⟨?_, ?_, ?_⟩ <;>
    simp [winRedo, stackRedoF, hget, cmdRedoWith, rawSet, onItemChangedF_guard]

/-- C3 (amended): for a cell edit whose cell was the one last clicked (the
click captures the prior text, `_on_cell_clicked`), `undo()` restores exactly
the prior text, a subsequent `redo()` restores the edited text, and
undo-then-redo leaves the grid exactly as after the edit.  (Without the click
the handler records `""` as the old value and undo restores `""` instead.) -/
theorem undo_redo_round_trip (σ : WinState) (r c : Nat) (txt : String)
    (hflag : σ.ignoreChange = false)
    (hr : r < σ.grid.length) (hc : c < (σ.grid.getD r []).length) :
    (userEdit (clickCell σ r c) r c txt).grid = setCell σ.grid r c txt
    ∧ (winUndo (userEdit (clickCell σ r c) r c txt)).grid = σ.grid
    ∧ (winRedo (winUndo (userEdit (clickCell σ r c) r c txt))).grid
        = (userEdit (clickCell σ r c) r c txt).grid := by
  have hflag1 : (clickCell σ r c).ignoreChange = false := hflag
  obtain ⟨hEg, hEs, hEi, hEf⟩ := userEdit_proj (clickCell σ r c) r c txt hflag1
  have hold : oldOf (clickCell σ r c) r c = getCell σ.grid r c := by
    simp [oldOf, clickCell]
  have hclicks : (clickCell σ r c).undoStack = σ.undoStack := rfl
  have hclicki : (clickCell σ r c).undoIndex = σ.undoIndex := rfl
  rw [hclicks, hclicki, hold] at hEs
  rw [hclicks, hclicki] at hEi
  have hgrid1 : (userEdit (clickCell σ r c) r c txt).grid = setCell σ.grid r c txt := by
    rw [hEg, setCell_setCell]
    rfl
  have hget : (userEdit (clickCell σ r c) r c txt).undoStack[
      (σ.undoStack.take σ.undoIndex).length]? = some ⟨r, c, getCell σ.grid r c, txt⟩ := by
    rw [hEs]
    exact get?_append_length _ _
  obtain ⟨hUg, hUs, hUi⟩ := winUndo_proj (userEdit (clickCell σ r c) r c txt)
    ⟨r, c, getCell σ.grid r c, txt⟩ (σ.undoStack.take σ.undoIndex).length hEi hget
  have hgrid2 : (winUndo (userEdit (clickCell σ r c) r c txt)).grid = σ.grid := by
    rw [hUg, hgrid1, setCell_setCell, setCell_getCell_self σ.grid r c hr hc]
  have hget2 : (winUndo (userEdit (clickCell σ r c) r c txt)).undoStack[
      (winUndo (userEdit (clickCell σ r c) r c txt)).undoIndex]?
        = some ⟨r, c, getCell σ.grid r c, txt⟩ := by
    rw [hUs, hUi, hEs]
    exact get?_append_length _ _
  obtain ⟨hRg, hRs, hRi⟩ := winRedo_proj (winUndo (userEdit (clickCell σ r c) r c txt))
    ⟨r, c, getCell σ.grid r c, txt⟩ hget2
  refine ⟨hgrid1, hgrid2, ?_⟩
  rw [hRg, hgrid2, hgrid1]

theorem undo_redo_round_trip_witness :
    (userEdit (clickCell ⟨[["5"]], none, none, false, [], 0⟩ 0 0) 0 0 "7").grid
        = setCell [["5"]] 0 0 "7"
    ∧ (winUndo (userEdit (clickCell ⟨[["5"]], none, none, false, [], 0⟩ 0 0) 0 0 "7")).grid
        = [["5"]]
    ∧ (winRedo (winUndo (userEdit (clickCell ⟨[["5"]], none, none, false, [], 0⟩ 0 0) 0 0 "7"))).grid
        = (userEdit (clickCell ⟨[["5"]], none, none, false, [], 0⟩ 0 0) 0 0 "7").grid :=
  undo_redo_round_trip ⟨[["5"]], none, none, false, [], 0⟩ 0 0 "7" rfl
    (by decide) (by decide)

/-- C3 counterexample: the user edits cell (0,0), holding "5", without having
clicked it (no `cellClicked` for that cell): `_on_item_changed` records `""`
as the old value (line 70), so `undo()` sets the cell to `""`, not to the text
"5" the cell held before the edit. -/
theorem undo_not_restoring_unclicked_cell :
    getCell (winUndo (userEdit ⟨[["5"]], none, none, false, [], 0⟩ 0 0 "7")).grid 0 0 = ""
    ∧ getCell ([["5"]] : List (List String)) 0 0 = "5" := by
  constructor <;> decide

/-- Temp-file bookkeeping during a PDF export: ids handed out by
`tempfile.mkstemp` and the ones still existing on disk. -/
structure ExpState where
  nextTemp : Nat
  live : List Nat
deriving DecidableEq

def mkstemp (s : ExpState) : Nat × ExpState :=
  (s.nextTemp, ⟨s.nextTemp + 1, s.live ++ [s.nextTemp]⟩)

/-- One step of `_cleanup_temp_files`: `os.remove` guarded by
`os.path.exists`. -/
def removeFile (n : Nat) (s : ExpState) : ExpState :=
  ⟨s.nextTemp, s.live.filter fun m => m != n⟩

/-- `PdfExporter._create_pie_chart` (lines 89-112): mkstemp first, then group,
sort and take the top 10 (`topGroups`, lines 102-103) and draw with `ax.pie` —
matplotlib raises `ValueError` when any wedge size is negative, i.e. when any
of the plotted group sums is negative (reachable through a negative `Amount`
cell, which `pd.to_numeric` coerces and `dropna` keeps).  The failure happens
after the temp file was created (`Except.error` carries it live). -/
def createPieChartFile (df : List TRow) (s : ExpState) : Except ExpState (Nat × ExpState) :=
  let p := mkstemp s
  if (topGroups df).all fun g => 0 ≤ g.2 then Except.ok p else Except.error p.2

/-- `PdfExporter._create_time_chart` (lines 114-147): mkstemp first, then
`pd.to_datetime(df_time['Date'])` *without* `errors='coerce'` — it raises when
any date fails to parse, after the temp file was already created
(`Except.error` carries the state with the new file live). -/
def createTimeChartFile (df : List TRow) (s : ExpState) : Except ExpState (Nat × ExpState) :=
  let p := mkstemp s
  if df.all fun r => (parseDate r.date).isSome then Except.ok p
  else Except.error p.2

/-- `PdfExporter.export` (lines 23-46): validate, ask for a save path, create
the chart images (outside the `try`), then `try` building the PDF with the
cleanup in `finally`.  `buildOk` models whether the ReportLab build raises;
the returned flag is true only for a fully successful export.  An exception in
chart creation (negative pie wedge or unparseable date) propagates before the
`try` is entered, so no cleanup runs. -/
def pdfExport (df : List TRow) (savePath : Option String) (buildOk : Bool)
    (s : ExpState) : ExpState × Bool :=
  if df.isEmpty then (s, false)
  else
    match savePath with
    | none => (s, false)
    | some _ =>
      match createPieChartFile df s with
      | Except.error s1 => (s1, false)
      | Except.ok (pie, s1) =>
        match createTimeChartFile df s1 with
        | Except.error s2 => (s2, false)
        | Except.ok (time, s2) =>
          let s3 := removeFile time (removeFile pie s2)
          (s3, buildOk)

/-- C5 (amended): whenever chart-image creation completes — every plotted
group sum is non-negative, so `ax.pie` accepts the wedges, and every date
parses, so `to_datetime` succeeds — both temporary files are deleted by the
end of the export whether the PDF build succeeds or fails (the `finally`
cleanup); but when chart creation itself fails partway (negative wedge sum in
`_create_pie_chart`, or unparseable date in `_create_time_chart`), the
already created temp files are not removed — creation happens before the
`try`/`finally`. -/
theorem pdfExport_cleanup_after_charts (df : List TRow) (path : String) (buildOk : Bool)
    (n : Nat) (hpie : (topGroups df).all fun g => 0 ≤ g.2)
    (hdates : df.all fun r => (parseDate r.date).isSome) :
    (pdfExport df (some path) buildOk ⟨n, []⟩).1.live = [] := by
  unfold pdfExport createPieChartFile createTimeChartFile mkstemp removeFile
  by_cases he : df.isEmpty
  · simp [he]
  · have hne : (n + 1 != n) = true := by simp
    simp only [he, if_false, hpie, hdates, if_true, Bool.false_eq_true]
    simp [List.filter, hne]

theorem pdfExport_cleanup_after_charts_witness :
    (pdfExport [(⟨"a", "2024-01-01", "Income", 1⟩ : TRow)] (some "o.pdf") false ⟨0, []⟩).1.live
      = [] :=
  pdfExport_cleanup_after_charts _ _ _ _ (by decide) (by decide)

/-- C5 counterexample: a non-empty data set whose date does not parse — the
pie temp file (id 0) and the time-chart temp file (id 1) are both created, the
`to_datetime` call raises, and the export ends with both files still on disk. -/
theorem pdfExport_leaks_on_chart_failure :
    (pdfExport [(⟨"a", "x", "Income", 1⟩ : TRow)] (some "o.pdf") true ⟨0, []⟩).1.live
      = [0, 1] := by
  decide

/-- The other partial-failure leak: a negative amount makes the plotted group
sum negative, `ax.pie` raises after the pie temp file (id 0) was created, and
the export ends with that file still on disk. -/
theorem pdfExport_leaks_on_negative_pie_sum :
    (pdfExport [(⟨"a", "2024-01-01", "Income", -1⟩ : TRow)] (some "o.pdf") true ⟨0, []⟩).1.live
      = [0] := by
  decide

/-- Parsed CSV file content as produced by `pd.read_csv`. -/
structure CsvData where
  headers : List String
  rows : List (List String)
deriving DecidableEq

/-- The state `CsvReader.read` touches: its `current_filename`, the table
widget it populates, and (for the frame condition) the window's undo stack. -/
structure AppState where
  currentFilename : Option String
  headers : List String
  gridRows : List (List String)
  undoStack : List EditCmd
  undoIndex : Nat
deriving DecidableEq

inductive ImportErr where
  | ioError
  | schemaError
deriving DecidableEq

/-- `CsvReader._check_csv_columns` (lines 22-33). -/
def requiredColumnsPresent (headers : List String) : Bool :=
  ["Description", "Date", "Type", "Amount"].all fun c2 => headers.contains c2

/-- `CsvReader.read` (lines 35-66): `none` dialog result = cancel, nothing
happens; otherwise `current_filename` is set *before* the file is read; a
read failure (`fileContent = none`) or missing required columns abort with a
categorized message, leaving the table and undo stack untouched; on success
the table is replaced wholesale. -/
def csvRead (σ : AppState) (dialogResult : Option String) (fileContent : Option CsvData) :
    AppState × Option ImportErr :=
  match dialogResult with
  | none => (σ, none)
  | some fname =>
    let σ1 := { σ with currentFilename := some fname }
    match fileContent with
    | none => (σ1, some ImportErr.ioError)
    | some csv =>
      if requiredColumnsPresent csv.headers then
        ({ σ1 with headers := csv.headers, gridRows := csv.rows }, none)
      else (σ1, some ImportErr.schemaError)

/-- `CsvReader.quick_save` (lines 117-123): the write target and data — the
remembered current filename with the current grid — or `none` when there is no
current file and a Save-As dialog would open instead. -/
def quickSave (σ : AppState) : Option (String × List String × List (List String)) :=
  σ.currentFilename.map fun f => (f, σ.headers, σ.gridRows)

/-- C6: importing a CSV whose header lacks any of the required columns
Description, Date, Type, Amount fails with a schema error and leaves the grid
and the Edit History exactly as they were. -/
theorem import_missing_columns_aborts (σ : AppState) (f : String) (csv : CsvData)
    (h : requiredColumnsPresent csv.headers = false) :
    (csvRead σ (some f) (some csv)).2 = some ImportErr.schemaError
    ∧ (csvRead σ (some f) (some csv)).1.headers = σ.headers
    ∧ (csvRead σ (some f) (some csv)).1.gridRows = σ.gridRows
    ∧ (csvRead σ (some f) (some csv)).1.undoStack = σ.undoStack
    ∧ (csvRead σ (some f) (some csv)).1.undoIndex = σ.undoIndex := by
  refine ⟨?_, ?_, ?_, ?_, ?_⟩ <;> simp [csvRead, h]

theorem import_missing_columns_aborts_witness :
    (csvRead ⟨some "old.csv", ["Description", "Date", "Type", "Amount"],
        [["a", "2024-01-01", "Income", "5"]], [], 0⟩
      (some "new.csv") (some ⟨["Description", "Date", "Type"], []⟩)).2
        = some ImportErr.schemaError
    ∧ (csvRead ⟨some "old.csv", ["Description", "Date", "Type", "Amount"],
        [["a", "2024-01-01", "Income", "5"]], [], 0⟩
      (some "new.csv") (some ⟨["Description", "Date", "Type"], []⟩)).1.gridRows
        = [["a", "2024-01-01", "Income", "5"]] :=
  ⟨(import_missing_columns_aborts _ _ _ (by decide)).1,
   (import_missing_columns_aborts _ _ _ (by decide)).2.2.1⟩

/-- C10: whenever a file is selected in the import dialog, the remembered
current filename is updated before the file is read or validated, so even a
failed import (read error or missing columns) redirects a later quick-save to
the newly selected path; on such failures the grid and the Edit History do
not change. -/
theorem failed_import_redirects_quick_save (σ : AppState) (f : String)
    (content : Option CsvData)
    (hfail : content = none
      ∨ ∃ csv, content = some csv ∧ requiredColumnsPresent csv.headers = false) :
    (∀ c2 : Option CsvData, (csvRead σ (some f) c2).1.currentFilename = some f)
    ∧ quickSave (csvRead σ (some f) content).1 = some (f, σ.headers, σ.gridRows)
    ∧ (csvRead σ (some f) content).2 ≠ none
    ∧ (csvRead σ (some f) content).1.headers = σ.headers
    ∧ (csvRead σ (some f) content).1.gridRows = σ.gridRows
    ∧ (csvRead σ (some f) content).1.undoStack = σ.undoStack
    ∧ (csvRead σ (some f) content).1.undoIndex = σ.undoIndex := by
  have hname : ∀ c2 : Option CsvData, (csvRead σ (some f) c2).1.currentFilename = some f := by
    intro c2
    cases c2 with
    | none => rfl
    | some csv =>
      by_cases h : requiredColumnsPresent csv.headers <;> simp [csvRead, h]
  rcases hfail with rfl | ⟨csv, rfl, h⟩
  · exact ⟨hname, rfl, by simp [csvRead], rfl, rfl, rfl, rfl⟩
  · refine ⟨hname, ?_, ?_, ?_, ?_, ?_, ?_⟩ <;> simp [csvRead, quickSave, h]

theorem failed_import_redirects_quick_save_witness :
    quickSave (csvRead ⟨some "old.csv", ["Description", "Date", "Type", "Amount"],
        [["a", "2024-01-01", "Income", "5"]], [], 0⟩ (some "new.csv") none).1
      = some ("new.csv", ["Description", "Date", "Type", "Amount"],
          [["a", "2024-01-01", "Income", "5"]]) :=
  (failed_import_redirects_quick_save _ _ _ (Or.inl rfl)).2.1
